import Mathlib

/-!
Verification of the crimson actor-system core.

The development shallowly embeds the two source modules of the repository:

* `src/channel.ts` — the raw single-subscriber channel primitive
  (`ChannelSender`, `ChannelReceiver`, `channel`);
* `src/index.ts` — the actor layer (`SystemMessage`, `Sender`, `Receiver`,
  `System` with `mount` / `start` / `stop`, the router handler and the
  per-address drain loops).

JavaScript `Map` objects are embedded as insertion-ordered association
lists (`AList`), mutable callback fields as ordinary structure fields that
are replaced functionally, thrown exceptions as `Except`, and the
timer-driven drain loop as an explicit labelled transition system whose
events are the suspension points of the single-threaded host scheduler.
-/

namespace Crimson

/-- Insertion-ordered association list, the embedding of a JavaScript
`Map`: `set` replaces in place when the key is present (keeping its
position, as JS `Map.set` does) and appends otherwise; `get?` / `has` /
`keys` mirror `Map.get` / `Map.has` / `Map.keys`. -/
abbrev AList (K V : Type) := List (K × V)

namespace AList

variable {K V : Type} [DecidableEq K]

/-- Embedding of `Map.prototype.set`. -/
def set : AList K V → K → V → AList K V
  | [], k, v => [(k, v)]
  | (k', v') :: rest, k, v =>
    if k' = k then (k, v) :: rest else (k', v') :: set rest k v

/-- Embedding of `Map.prototype.get` (`none` when the key is absent). -/
def get? : AList K V → K → Option V
  | [], _ => none
  | (k', v') :: rest, k => if k' = k then some v' else get? rest k

/-- Embedding of `Map.prototype.has`. -/
def has (m : AList K V) (k : K) : Bool :=
  (m.get? k).isSome

/-- Embedding of `Map.prototype.keys` (insertion order). -/
def keys (m : AList K V) : List K :=
  m.map Prod.fst

end AList

/-- Embedding of the raw `ChannelReceiver<T>` class of `src/channel.ts`:
a `subscribed` flag (initialised `false`) and the current callback `func`
(initialised to the no-op `(_) => {}`). Callbacks return an abstract
observation type `R` so that registrations can be compared. -/
structure ChannelReceiver (T R : Type) where
  subscribed : Bool
  func : T → R

/-- Embedding of the `ChannelReceiver` construction performed by
`channel<T>()`: `subscribed = false`, callback the default no-op. -/
def ChannelReceiver.new (T R : Type) [Inhabited R] : ChannelReceiver T R :=
  { subscribed := false, func := fun _ => default }

/-- Embedding of `ChannelReceiver.on` exactly as written in the source:
`if (this.subscribed === false) { this.func = func } else { throw ... }`.
Note the source never assigns `this.subscribed = true`, and neither does
this embedding. The thrown `Error` becomes `Except.error`. -/
def ChannelReceiver.on {T R : Type} (r : ChannelReceiver T R) (f : T → R) :
    Except String (ChannelReceiver T R) :=
  if r.subscribed = false then
    Except.ok { r with func := f }
  else
    Except.error "cannot subscribe to a receiver more than once."

/-- Embedding of `ChannelReceiver.dispatch`: invoke the current callback. -/
def ChannelReceiver.dispatch {T R : Type} (r : ChannelReceiver T R) (v : T) : R :=
  r.func v

/-- Embedding of the `SystemMessage<T>` envelope of `src/index.ts`:
`{ from, to, value }`. -/
structure SystemMessage (T : Type) where
  «from» : String
  «to» : String
  value : T
deriving DecidableEq

/-- Embedding of the actor-scoped `Sender<T>` of `src/index.ts`: it holds
the address it was constructed with. Its raw channel end (`tx0`, whose
dispatch reaches the router handler) is embedded separately as `routeMsg`. -/
structure Sender (T : Type) where
  address : String
deriving DecidableEq

/-- Result of `Sender.send`: the source defers the actual submission with
`setTimeout(..., 1)`, so a call produces a pending task carrying the delay
(in scheduler units) and the envelope it will submit. -/
structure ScheduledSend (T : Type) where
  delayMs : Nat
  envelope : SystemMessage T
deriving DecidableEq

/-- Embedding of `Sender.send`:
`setTimeout(() => this.sender.send({from: this.address, to, value}), 1)`.
The call itself only schedules; it performs no fallible work, hence the
plain (total) return type. -/
def Sender.send {T : Type} (s : Sender T) («to» : String) (value : T) :
    ScheduledSend T :=
  { delayMs := 1, envelope := { «from» := s.address, «to» := «to», value := value } }

/-- Embedding of the actor-scoped `Receiver<T>` of `src/index.ts`: an
address and the current callback field `func` (initialised to the no-op
`(_0, _1) => {}`). Its constructor subscribes once to the underlying raw
channel with `(message) => this.func(message.from, message.value)`; that
subscription is embedded as `Receiver.deliver` below. Callbacks return an
abstract observation type `R`. -/
structure Receiver (T R : Type) where
  address : String
  func : String → T → R

/-- Embedding of the `Receiver` constructor `new Receiver(address, rx1)`:
the callback starts as the no-op default. -/
def Receiver.new (T R : Type) [Inhabited R] (address : String) :
    Receiver T R :=
  { address := address, func := fun _ _ => default }

/-- Embedding of the actor-scoped `Receiver.on`: `this.func = func` — an
unconditional overwrite, with no subscribed flag and no error path. -/
def Receiver.on {T R : Type} (r : Receiver T R) (f : String → T → R) :
    Receiver T R :=
  { r with func := f }

/-- Embedding of a message arriving on the receiver's raw channel: the
construction-time subscription unwraps the envelope and invokes the
current callback as `this.func(message.from, message.value)`. -/
def Receiver.deliver {T R : Type} (r : Receiver T R) (m : SystemMessage T) : R :=
  r.func m.«from» m.value

/-- Embedding of the `System<T>` instance state of `src/index.ts`: the
system's own `address`, the `messages` map (one mailbox per address), the
`actors` registry, and the `started` flag. `A` is the abstract type of
mounted actors (host code supplies their behaviour). -/
structure SystemState (A T : Type) where
  address : String
  messages : AList String (List (SystemMessage T))
  actors : AList String A
  started : Bool
deriving DecidableEq

/-- Embedding of the `System` constructor: `this.messages = new Map()`,
`this.messages.set(address, [])`, `this.actors = new Map()`,
`this.started = false`. (The source defaults the address argument to
`"system"` when omitted.) -/
def SystemState.new (A T : Type) (address : String) : SystemState A T :=
  { address := address
    messages := AList.set [] address []
    actors := []
    started := false }

/-- Embedding of `System.mount`:
`this.actors.set(address, actor); this.messages.set(address, [])`. -/
def SystemState.mount {A T : Type} (s : SystemState A T) (address : String)
    (actor : A) : SystemState A T :=
  { s with
    actors := s.actors.set address actor
    messages := s.messages.set address [] }

/-- Embedding of `System.stop`: `this.started = false`. -/
def SystemState.stop {A T : Type} (s : SystemState A T) : SystemState A T :=
  { s with started := false }

/-- Embedding of the router handler subscribed on each outbound raw
channel (`rx0.on` in both `start_system` and `start_actors`):
`if (this.messages.has(message.to)) { this.messages.get(message.to).push(message) }`.
A present mailbox gets the envelope appended at its tail (JS `push` on the
array stored in the map); an absent destination leaves the map untouched. -/
def routeMsg {T : Type} (m : AList String (List (SystemMessage T)))
    (e : SystemMessage T) : AList String (List (SystemMessage T)) :=
  if m.has e.«to» then m.set e.«to» (((m.get? e.«to»).getD []) ++ [e]) else m

/-- Public operations of a `System<T>` instance, for lifecycle reasoning.
`start` is embedded here by its effect on the instance state: it sets
`this.started = true` and touches neither `messages` nor `actors` (its
wiring of channels and loops is embedded by `start_actors_runs`,
`routeMsg` and the transition systems below). -/
inductive SysOp (A T : Type) where
  | mount (address : String) (actor : A)
  | start
  | stop
deriving DecidableEq

/-- Discriminator for the `start` operation. -/
def SysOp.isStart {A T : Type} : SysOp A T → Bool
  | .start => true
  | _ => false

/-- Apply one public operation to the instance state. -/
def applyOp {A T : Type} (s : SystemState A T) : SysOp A T → SystemState A T
  | .mount a act => s.mount a act
  | .start => { s with started := true }
  | .stop => s.stop

/-- Apply a sequence of public operations, left to right. -/
def runOps {A T : Type} (s : SystemState A T) (ops : List (SysOp A T)) :
    SystemState A T :=
  ops.foldl applyOp s

/-- Record of one `actor.run(sender, receiver)` invocation performed by
`System.start_actors`. -/
structure RunInvocation (A T : Type) where
  address : String
  actor : Option A
  sender : Sender T
  receiver : Receiver T Unit

/-- Embedding of the loop body of `System.start_actors`: iterating
`this.actors.keys()` in registry order, it looks up the actor at each
address and synchronously invokes
`actor.run(new Sender(address, tx0), new Receiver(address, rx1))`. The
returned list records, in order, every `run` invocation `start` performs;
`run` is invoked nowhere else in the source. -/
def start_actors_runs {A T : Type} (s : SystemState A T) :
    List (RunInvocation A T) :=
  s.actors.keys.map fun a =>
    { address := a
      actor := s.actors.get? a
      sender := ⟨a⟩
      receiver := Receiver.new T Unit a }

/-- Events of the router/drain execution model: `route e` is the router
handler firing on envelope `e` (an outbound raw-channel dispatch), and
`drain a` is one inner drain pass of address `a`'s loop — popping the
head of `a`'s mailbox repeatedly (`messages.shift()`) until it is empty,
forwarding each popped envelope into `a`'s inbound raw channel. -/
inductive RouteEvent (T : Type) where
  | route (e : SystemMessage T)
  | drain (a : String)
deriving DecidableEq

/-- State of the router/drain execution model: the `messages` map plus the
log of deliveries — pairs of (drained address, envelope forwarded into
that address's inbound channel), in delivery order. -/
structure ExecState (T : Type) where
  messages : AList String (List (SystemMessage T))
  delivered : List (String × SystemMessage T)
deriving DecidableEq

/-- One step of the router/drain execution model. The inner drain loop
`while (messages.length > 0) { tx1.send(messages.shift()) }` runs with no
suspension point, so a full pass is one atomic step: it forwards the
mailbox's current contents oldest-first and leaves the mailbox empty. A
drain of an address with no mailbox does nothing. -/
def execStep {T : Type} (s : ExecState T) : RouteEvent T → ExecState T
  | .route e => { s with messages := routeMsg s.messages e }
  | .drain a =>
    match s.messages.get? a with
    | some box =>
      { messages := s.messages.set a []
        delivered := s.delivered ++ box.map fun e => (a, e) }
    | none => s

/-- Run a sequence of router/drain events, left to right. -/
def execRun {T : Type} (s : ExecState T) (tr : List (RouteEvent T)) :
    ExecState T :=
  tr.foldl execStep s

/-- Envelopes routed to destination `d` over a trace, in trace order. -/
def sentTo {T : Type} (d : String) (tr : List (RouteEvent T)) :
    List (SystemMessage T) :=
  tr.filterMap fun ev =>
    match ev with
    | .route e => if e.«to» = d then some e else none
    | .drain _ => none

/-- Envelopes delivered into address `d`'s inbound channel, in order. -/
def deliveredAt {T : Type} (d : String) (s : ExecState T) :
    List (SystemMessage T) :=
  s.delivered.filterMap fun p => if p.1 = d then some p.2 else none

/-- Current contents of address `d`'s mailbox (empty if absent). -/
def mailboxAt {T : Type} (d : String) (s : ExecState T) :
    List (SystemMessage T) :=
  (s.messages.get? d).getD []

/-- Values of the envelopes in `l` whose `from` field is `src`, in order. -/
def valuesFrom {T : Type} (src : String) (l : List (SystemMessage T)) :
    List T :=
  l.filterMap fun e => if e.«from» = src then some e.value else none

/-- Control position of one per-address drain loop
(`setTimeout(async () => { while (this.started) { await delay(1); ... } }, 1)`):
`scheduled` — the `setTimeout` callback has not fired yet (no `started`
check has happened); `delaying` — the loop passed a `started` check and is
suspended in `await delay(1)`; `exited` — a `started` check observed
`false` and the loop returned for good. -/
inductive LoopPhase where
  | scheduled
  | delaying
  | exited
deriving DecidableEq

/-- State of one mailbox's drain loop: the loop phase, the `started`
flag it polls, the mailbox it drains, and the log of values it has
forwarded into the inbound raw channel, in order. -/
structure LoopState (T : Type) where
  phase : LoopPhase
  started : Bool
  mailbox : List T
  delivered : List T
deriving DecidableEq

/-- Environment and scheduler events acting on one drain loop:
`enqueue v` — the router handler appends `v` to this mailbox (possible at
any suspension point, even after the loop exited, since nothing
unsubscribes the router); `stop` — `System.stop()` sets `started = false`;
`tick` — the pending timer fires. -/
inductive LoopEvent (T : Type) where
  | enqueue (v : T)
  | stop
  | tick
deriving DecidableEq

/-- One step of the drain-loop transition system. A `tick` in phase
`scheduled` is the `setTimeout` callback firing: the loop evaluates
`while (this.started)` for the first time and either enters `delay(1)`
(no drain) or returns immediately. A `tick` in phase `delaying` is
`delay(1)` resolving: the loop drains the whole mailbox oldest-first
(the inner `while` has no suspension point), then re-evaluates
`while (this.started)` — continuing into the next `delay(1)` or exiting.
Ticks after exit do nothing. -/
def loopStep {T : Type} (s : LoopState T) : LoopEvent T → LoopState T
  | .enqueue v => { s with mailbox := s.mailbox ++ [v] }
  | .stop => { s with started := false }
  | .tick =>
    match s.phase with
    | .scheduled => { s with phase := if s.started then .delaying else .exited }
    | .delaying =>
      { s with
        delivered := s.delivered ++ s.mailbox
        mailbox := []
        phase := if s.started then .delaying else .exited }
    | .exited => s

/-- Run a sequence of drain-loop events, left to right. -/
def loopRun {T : Type} (s : LoopState T) (tr : List (LoopEvent T)) :
    LoopState T :=
  tr.foldl loopStep s

/-- Values enqueued into the mailbox over a trace, in trace order. -/
def enqueuedOf {T : Type} (tr : List (LoopEvent T)) : List T :=
  tr.filterMap fun ev =>
    match ev with
    | .enqueue v => some v
    | _ => none

/-! Theorems. First the `AList` (JS `Map`) lemmas, then helper lemmas for
the transition systems, then the claim theorems. -/

namespace AList

variable {K V : Type} [DecidableEq K]

theorem get?_set_self (m : AList K V) (k : K) (v : V) :
    (m.set k v).get? k = some v := by
  induction m with
  | nil => simp [set, get?]
  | cons hd tl ih =>
    obtain ⟨k', v'⟩ := hd
    by_cases h : k' = k <;> simp [set, get?, h, ih]

theorem get?_set_ne (m : AList K V) (k k₂ : K) (v : V) (h : k₂ ≠ k) :
    (m.set k v).get? k₂ = m.get? k₂ := by
  induction m with
  | nil => simp [set, get?, Ne.symm h]
  | cons hd tl ih =>
    obtain ⟨k', v'⟩ := hd
    by_cases hk : k' = k
    · subst hk
      simp [set, get?, Ne.symm h]
    · by_cases hk2 : k' = k₂ <;> simp [set, get?, hk, hk2, h, ih]

theorem mem_keys_of_get?_eq_some {m : AList K V} {k : K} {v : V}
    (h : m.get? k = some v) : k ∈ m.keys := by
  induction m with
  | nil => simp [get?] at h
  | cons hd tl ih =>
    obtain ⟨k', v'⟩ := hd
    by_cases hk : k' = k
    · subst hk
      simp [keys]
    · simp only [get?, hk, if_false] at h
      simp only [keys, List.map_cons, List.mem_cons]
      exact Or.inr (ih h)

theorem mem_keys_set (m : AList K V) (k a : K) (v : V)
    (h : a ∈ (m.set k v).keys) : a = k ∨ a ∈ m.keys := by
  induction m with
  | nil => simpa [set, keys] using h
  | cons hd tl ih =>
    obtain ⟨k', v'⟩ := hd
    by_cases hk : k' = k
    · subst hk
      simpa [set, keys] using h
    · simp only [set, hk, if_false, keys, List.map_cons, List.mem_cons] at h
      rcases h with h | h
      · exact Or.inr (by simp [keys, h])
      · rcases ih h with h' | h'
        · exact Or.inl h'
        · exact Or.inr (by simp [keys] at h' ⊢; exact Or.inr h')

theorem nodup_keys_set (m : AList K V) (k : K) (v : V)
    (h : m.keys.Nodup) : ((m.set k v).keys).Nodup := by
  induction m with
  | nil => simp [set, keys]
  | cons hd tl ih =>
    obtain ⟨k', v'⟩ := hd
    simp only [keys, List.map_cons, List.nodup_cons] at h
    by_cases hk : k' = k
    · subst hk
      simpa [set, keys] using h
    · simp only [set, hk, if_false, keys, List.map_cons, List.nodup_cons]
      refine ⟨fun hmem => ?_, ih h.2⟩
      rcases mem_keys_set tl k k' v hmem with h' | h'
      · exact hk h'
      · exact h.1 h'

end AList

/-- Folding `Receiver.on` over a sequence of callbacks leaves the last
one registered (or the initial one for the empty sequence). -/
theorem receiver_on_foldl {T R : Type} (r : Receiver T R)
    (fs : List (String → T → R)) :
    (fs.foldl Receiver.on r).func = fs.getLastD r.func := by
  induction fs generalizing r with
  | nil => rfl
  | cons f fs ih =>
    rw [List.foldl_cons, List.getLastD_cons]
    exact ih (r.on f)

/-- Applying any sequence of operations none of which is `start` to a
stopped system leaves it stopped. -/
theorem runOps_stays_stopped {A T : Type} (ops : List (SysOp A T)) :
    ∀ s : SystemState A T, s.started = false →
      (∀ op ∈ ops, op.isStart = false) → (runOps s ops).started = false := by
  induction ops with
  | nil =>
    intro s hs _
    exact hs
  | cons op ops ih =>
    intro s hs hops
    have hop := hops op (List.mem_cons_self op ops)
    have hrest := fun o ho => hops o (List.mem_cons_of_mem op ho)
    cases op with
    | mount a act => exact ih _ hs hrest
    | start => simp [SysOp.isStart] at hop
    | stop => exact ih _ rfl hrest

/-- Delivery-log pairs produced by draining mailbox `box` at address `a`
all carry address `a`, so filtering for `a` recovers `box` itself. -/
theorem filterMap_pair_self {T : Type} (a : String)
    (box : List (SystemMessage T)) :
    List.filterMap
        (fun p : String × SystemMessage T => if p.1 = a then some p.2 else none)
        (box.map fun e => (a, e)) = box := by
  induction box with
  | nil => rfl
  | cons e box ih => simp [ih]

/-- Delivery-log pairs produced by draining at address `a` are invisible
when filtering for a different address `d`. -/
theorem filterMap_pair_other {T : Type} (a d : String) (h : a ≠ d)
    (box : List (SystemMessage T)) :
    List.filterMap
        (fun p : String × SystemMessage T => if p.1 = d then some p.2 else none)
        (box.map fun e => (a, e)) = [] := by
  induction box with
  | nil => rfl
  | cons e box ih => simp [ih, h]

/-- Router/drain invariant: for a destination `d` whose mailbox exists,
the envelopes delivered at `d` so far followed by `d`'s current mailbox
are exactly the previously delivered and queued envelopes plus everything
routed to `d` over the trace, in order — drains move the mailbox's
contents to the delivery log without loss, duplication or reordering. -/
theorem exec_delivered_mailbox_invariant {T : Type} (d : String)
    (tr : List (RouteEvent T)) :
    ∀ (s : ExecState T) (b0 : List (SystemMessage T)),
      AList.get? s.messages d = some b0 →
      ∃ b1, AList.get? (execRun s tr).messages d = some b1 ∧
        deliveredAt d (execRun s tr) ++ b1
          = deliveredAt d s ++ b0 ++ sentTo d tr := by
  induction tr with
  | nil =>
    intro s b0 hb
    exact ⟨b0, hb, by simp [execRun, sentTo]⟩
  | cons ev tr ih =>
    intro s b0 hb
    cases ev with
    | route e =>
      by_cases hto : e.«to» = d
      · subst hto
        have hh : AList.has s.messages e.«to» = true := by simp [AList.has, hb]
        have hstep : execStep s (.route e)
            = { s with
                messages := AList.set s.messages e.«to» (b0 ++ [e]) } := by
          simp [execStep, routeMsg, hh, hb]
        obtain ⟨b1, h1, h2⟩ := ih (execStep s (.route e)) (b0 ++ [e])
          (by rw [hstep]; exact AList.get?_set_self _ _ _)
        refine ⟨b1, h1, ?_⟩
        have hmid : deliveredAt e.«to» (execStep s (.route e))
            = deliveredAt e.«to» s := by
          rw [hstep]
          rfl
        rw [hmid] at h2
        have hsent : sentTo e.«to» (RouteEvent.route e :: tr)
            = e :: sentTo e.«to» tr := by
          simp [sentTo]
        calc deliveredAt e.«to» (execRun s (RouteEvent.route e :: tr)) ++ b1
            = deliveredAt e.«to» s ++ (b0 ++ [e]) ++ sentTo e.«to» tr := h2
          _ = deliveredAt e.«to» s ++ b0 ++ sentTo e.«to» (RouteEvent.route e :: tr) := by
              rw [hsent]
              simp [List.append_assoc]
      · have hget : AList.get? (routeMsg s.messages e) d = some b0 := by
          by_cases hh : AList.has s.messages e.«to» = true
          · rw [routeMsg, if_pos hh]
            rw [AList.get?_set_ne _ _ _ _ (Ne.symm hto)]
            exact hb
          · rw [routeMsg, if_neg (by simpa using hh)]
            exact hb
        obtain ⟨b1, h1, h2⟩ := ih (execStep s (.route e)) b0 hget
        refine ⟨b1, h1, ?_⟩
        have hsent : sentTo d (RouteEvent.route e :: tr) = sentTo d tr := by
          simp [sentTo, hto]
        rw [hsent]
        exact h2
    | drain a =>
      cases hbox : AList.get? s.messages a with
      | none =>
        have hstep : execStep s (.drain a) = s := by
          simp [execStep, hbox]
        obtain ⟨b1, h1, h2⟩ := ih (execStep s (.drain a)) b0 (by rw [hstep]; exact hb)
        refine ⟨b1, h1, ?_⟩
        have hsent : sentTo d (RouteEvent.drain a :: tr) = sentTo d tr := by
          simp [sentTo]
        rw [hsent]
        calc deliveredAt d (execRun s (RouteEvent.drain a :: tr)) ++ b1
            = deliveredAt d (execRun (execStep s (.drain a)) tr) ++ b1 := rfl
          _ = deliveredAt d (execStep s (.drain a)) ++ b0 ++ sentTo d tr := h2
          _ = deliveredAt d s ++ b0 ++ sentTo d tr := by rw [hstep]
      | some box =>
        have hstep : execStep s (.drain a)
            = { messages := AList.set s.messages a []
                delivered := s.delivered ++ box.map fun e => (a, e) } := by
          simp [execStep, hbox]
        by_cases had : a = d
        · subst had
          have hbb : box = b0 := by
            rw [hbox] at hb
            exact Option.some.inj hb
          subst hbb
          obtain ⟨b1, h1, h2⟩ := ih (execStep s (.drain a)) []
            (by rw [hstep]; exact AList.get?_set_self _ _ _)
          refine ⟨b1, h1, ?_⟩
          have hmid : deliveredAt a (execStep s (.drain a))
              = deliveredAt a s ++ box := by
            rw [hstep]
            simp only [deliveredAt, List.filterMap_append]
            rw [filterMap_pair_self]
          rw [hmid] at h2
          have hsent : sentTo a (RouteEvent.drain a :: tr) = sentTo a tr := by
            simp [sentTo]
          rw [hsent]
          calc deliveredAt a (execRun s (RouteEvent.drain a :: tr)) ++ b1
              = deliveredAt a (execRun (execStep s (.drain a)) tr) ++ b1 := rfl
            _ = deliveredAt a s ++ box ++ [] ++ sentTo a tr := h2
            _ = deliveredAt a s ++ box ++ sentTo a tr := by
                simp [List.append_assoc]
        · obtain ⟨b1, h1, h2⟩ := ih (execStep s (.drain a)) b0
            (by rw [hstep]
                exact (AList.get?_set_ne _ _ _ _ (Ne.symm had)).trans hb)
          refine ⟨b1, h1, ?_⟩
          have hmid : deliveredAt d (execStep s (.drain a))
              = deliveredAt d s := by
            rw [hstep]
            simp only [deliveredAt, List.filterMap_append]
            rw [filterMap_pair_other a d had]
            simp
          rw [hmid] at h2
          have hsent : sentTo d (RouteEvent.drain a :: tr) = sentTo d tr := by
            simp [sentTo]
          rw [hsent]
          exact h2

/-- C2: FIFO per mailbox. Starting from a state where destination `d` has
an empty mailbox and nothing has been delivered (the state `start()`
leaves every mounted address in), over any interleaving of router events
and drain cycles the sequence of envelopes the drain loop forwards into
`d`'s inbound channel — hence the sequence the destination's callback
observes — is a prefix of the sequence of envelopes routed to `d`, in
routing order; restricted to the envelopes sent from any one fixed source
address, the observed values are therefore a prefix of the values that
source sent to `d`, in the order it sent them. -/
theorem mailbox_fifo {T : Type} (d src : String) (s : ExecState T)
    (tr : List (RouteEvent T))
    (hbox : AList.get? s.messages d = some [])
    (hdel : s.delivered = []) :
    (∃ rest, deliveredAt d (execRun s tr) ++ rest = sentTo d tr) ∧
    (∃ rest, valuesFrom src (deliveredAt d (execRun s tr)) ++ rest
        = valuesFrom src (sentTo d tr)) := by
  obtain ⟨b1, _, hinv⟩ := exec_delivered_mailbox_invariant d tr s [] hbox
  have hdel0 : deliveredAt d s = [] := by
    simp [deliveredAt, hdel]
  rw [hdel0] at hinv
  simp only [List.append_nil, List.nil_append] at hinv
  refine ⟨⟨b1, hinv⟩, ⟨valuesFrom src b1, ?_⟩⟩
  rw [← hinv]
  simp [valuesFrom, List.filterMap_append]

/-- Witness for C2: source `"a"` routes values `1, 2` to `"b"` with a
drain in between; the delivered values `[1]` after the partial run are a
prefix of the sent values `[1, 2]`. -/
theorem mailbox_fifo_witness :
    (AList.get? (([("b", [])] : AList String (List (SystemMessage Nat)))) "b"
        = some []) ∧
    (∃ rest, valuesFrom "a" (deliveredAt "b" (execRun ⟨[("b", [])], []⟩
        [RouteEvent.route ⟨"a", "b", 1⟩, RouteEvent.drain "b",
         RouteEvent.route ⟨"a", "b", 2⟩])) ++ rest
      = valuesFrom "a" (sentTo "b"
        [RouteEvent.route ⟨"a", "b", 1⟩, RouteEvent.drain "b",
         RouteEvent.route ⟨"a", "b", 2⟩])) := by
  refine ⟨by decide, ?_⟩
  exact (mailbox_fifo "b" "a" ⟨[("b", [])], []⟩
    [RouteEvent.route ⟨"a", "b", 1⟩, RouteEvent.drain "b",
     RouteEvent.route ⟨"a", "b", 2⟩] (by decide) rfl).2

/-- C1: the claim states that on a raw channel Receiver the first `on`
registers the callback and any second `on` raises the AlreadySubscribed
error synchronously without replacing it. Evaluating the embedded code at
the failing input (subscribe `fun _ => 1`, then `fun _ => 2`) refutes the
second part: because `ChannelReceiver.on` never sets `subscribed = true`
(faithful to the source, where the assignment is missing), the second call
also takes the success branch — it returns normally, overwrites the first
callback, and the error branch is unreachable. -/
theorem raw_receiver_second_on_overwrites :
    (ChannelReceiver.new Nat Nat).on (fun _ => 1)
        = Except.ok { subscribed := false, func := fun _ => 1 } ∧
    ChannelReceiver.on
        ({ subscribed := false, func := fun _ => 1 } : ChannelReceiver Nat Nat)
        (fun _ => 2)
        = Except.ok { subscribed := false, func := fun _ => 2 } ∧
    ChannelReceiver.dispatch
        ({ subscribed := false, func := fun _ => 2 } : ChannelReceiver Nat Nat)
        0 = 2 :=
  ⟨rfl, rfl, rfl⟩

/-- C3: for a `Sender` constructed with address `a`, `send(to, value)`
constructs exactly the envelope `{from: a, to, value}` and schedules its
submission behind a 1-unit timer (never synchronously in the caller's
context); the call is total, so it returns without error for every
destination and value. -/
theorem sender_send_defers_exact_envelope {T : Type} (a dest : String) (v : T) :
    (Sender.mk a : Sender T).send dest v
      = { delayMs := 1, envelope := { «from» := a, «to» := dest, value := v } } :=
  rfl

/-- C5: on an addressed (actor-scoped) `Receiver`, `on` can be called any
number of times and never raises an error (it is a total overwrite): after
a sequence of calls the last registered callback — or the constructor's
no-op for the empty sequence — is the one held, and the next message
delivered through the construction-time channel subscription invokes
exactly it, with the envelope unwrapped into `(from, value)`. -/
theorem addressed_receiver_on_replaces {T R : Type} [Inhabited R]
    (a : String) (fs : List (String → T → R)) (m : SystemMessage T) :
    (fs.foldl Receiver.on (Receiver.new T R a)).func
        = fs.getLastD (Receiver.new T R a).func ∧
    (fs.foldl Receiver.on (Receiver.new T R a)).deliver m
        = (fs.getLastD (Receiver.new T R a).func) m.«from» m.value := by
  have h := receiver_on_foldl (Receiver.new T R a) fs
  exact ⟨h, by simp [Receiver.deliver, h]⟩

/-- C4: the router handler appends an envelope at the tail of the `to`
mailbox when that mailbox exists, leaving every other mailbox unchanged;
when the destination has no mailbox it is a complete no-op — the envelope
is silently dropped, no error is raised, every mailbox is unchanged. -/
theorem router_appends_or_drops {T : Type}
    (m : AList String (List (SystemMessage T))) (e : SystemMessage T) :
    (∀ box, m.get? e.«to» = some box →
        (routeMsg m e).get? e.«to» = some (box ++ [e]) ∧
        ∀ b, b ≠ e.«to» → (routeMsg m e).get? b = m.get? b) ∧
    (m.has e.«to» = false → routeMsg m e = m) := by
  constructor
  · intro box hbox
    have hh : m.has e.«to» = true := by simp [AList.has, hbox]
    constructor
    · simp [routeMsg, hh, hbox, AList.get?_set_self]
    · intro b hb
      simp [routeMsg, hh, AList.get?_set_ne _ _ _ _ hb]
  · intro hh
    simp [routeMsg, hh]

/-- Witness for C4 at concrete inputs: the map with one mailbox `"b"`,
an envelope routed from `"a"` to `"b"` (appended), and an envelope to the
never-mounted `"x"` (dropped, map unchanged). -/
theorem router_appends_or_drops_witness :
    (AList.get? ([("b", [])] : AList String (List (SystemMessage Nat))) "b"
        = some []) ∧
    (routeMsg ([("b", [])] : AList String (List (SystemMessage Nat)))
        ⟨"a", "b", 1⟩).get? "b" = some ([] ++ [⟨"a", "b", 1⟩]) ∧
    (("c" : String) ≠ "b") ∧
    (routeMsg ([("b", [])] : AList String (List (SystemMessage Nat)))
        ⟨"a", "b", 1⟩).get? "c"
      = AList.get? ([("b", [])] : AList String (List (SystemMessage Nat))) "c" ∧
    (AList.has ([("b", [])] : AList String (List (SystemMessage Nat))) "x"
        = false) ∧
    routeMsg ([("b", [])] : AList String (List (SystemMessage Nat))) ⟨"a", "x", 2⟩
      = [("b", [])] := by
  refine ⟨by decide, ?_, by decide, ?_, by decide, ?_⟩
  · exact ((router_appends_or_drops [("b", [])] ⟨"a", "b", 1⟩).1 [] (by decide)).1
  · exact ((router_appends_or_drops [("b", [])] ⟨"a", "b", 1⟩).1 []
      (by decide)).2 "c" (by decide)
  · exact (router_appends_or_drops [("b", [])] ⟨"a", "x", 2⟩).2 (by decide)

/-- C9: `stop()` sets the `started` flag to false and changes nothing
else: the actor registry, the messages map — hence every mailbox's
contents — and the system's own address are exactly as before the call. -/
theorem stop_only_clears_started {A T : Type} (s : SystemState A T) :
    s.stop.started = false ∧ s.stop.actors = s.actors ∧
    s.stop.messages = s.messages ∧ s.stop.address = s.address ∧
    ∀ a, AList.get? s.stop.messages a = AList.get? s.messages a :=
  ⟨rfl, rfl, rfl, rfl, fun _ => rfl⟩

/-- C10: `mount(a, actor)` unconditionally installs a fresh empty mailbox
at `a` — discarding whatever envelopes a pre-existing mailbox at `a` held,
whether from a prior mount or because `a` is the system's own address —
registers the actor at `a`, and leaves mailboxes at all other addresses
unchanged. -/
theorem mount_resets_mailbox {A T : Type} (s : SystemState A T) (a : String)
    (act : A) :
    AList.get? (s.mount a act).messages a = some [] ∧
    (∀ b, b ≠ a →
        AList.get? (s.mount a act).messages b = AList.get? s.messages b) ∧
    AList.get? (s.mount a act).actors a = some act := by
  refine ⟨?_, ?_, ?_⟩
  · exact AList.get?_set_self _ _ _
  · intro b hb
    exact AList.get?_set_ne _ _ _ _ hb
  · exact AList.get?_set_self _ _ _

/-- Witness for C10: mounting at `"a"`, whose mailbox already holds an
envelope, resets it to empty while the system's own mailbox `"sys"` is
untouched. -/
theorem mount_resets_mailbox_witness :
    (("sys" : String) ≠ "a") ∧
    AList.get? ((SystemState.mount
        (⟨"sys", [("sys", []), ("a", [⟨"x", "a", 5⟩])], [], false⟩
          : SystemState Unit Nat) "a" ()).messages) "a" = some [] ∧
    AList.get? ((SystemState.mount
        (⟨"sys", [("sys", []), ("a", [⟨"x", "a", 5⟩])], [], false⟩
          : SystemState Unit Nat) "a" ()).messages) "sys"
      = AList.get?
          ([("sys", []), ("a", [⟨"x", "a", 5⟩])]
            : AList String (List (SystemMessage Nat))) "sys" := by
  refine ⟨by decide, ?_, ?_⟩
  · exact (mount_resets_mailbox _ "a" ()).1
  · exact (mount_resets_mailbox _ "a" ()).2.1 "sys" (by decide)

/-- After a drain loop has exited, no event ever changes its delivery log
or brings it back: ticks are ignored, stops only touch the flag, and
enqueues only grow the never-again-drained mailbox. -/
theorem loopRun_exited_frozen {T : Type} (tr : List (LoopEvent T)) :
    ∀ s : LoopState T, s.phase = LoopPhase.exited →
      (loopRun s tr).delivered = s.delivered ∧
      (loopRun s tr).phase = LoopPhase.exited := by
  induction tr with
  | nil =>
    intro s h
    exact ⟨rfl, h⟩
  | cons ev tr ih =>
    intro s h
    cases ev with
    | enqueue v => exact ih _ h
    | stop => exact ih _ h
    | tick =>
      have hstep : loopStep s LoopEvent.tick = s := by
        simp [loopStep, h]
      have hph : (loopStep s LoopEvent.tick).phase = LoopPhase.exited := by
        rw [hstep]
        exact h
      have hrec := ih (loopStep s LoopEvent.tick) hph
      exact ⟨hrec.1.trans (by rw [hstep]), hrec.2⟩

/-- Exactly-once bookkeeping for one drain loop: at any point the values
delivered so far followed by the current mailbox are exactly the initially
delivered and queued values plus every value enqueued over the trace, in
order — no step loses, duplicates or reorders an envelope. -/
theorem loop_delivered_mailbox_invariant {T : Type} (tr : List (LoopEvent T)) :
    ∀ s : LoopState T,
      (loopRun s tr).delivered ++ (loopRun s tr).mailbox
        = s.delivered ++ s.mailbox ++ enqueuedOf tr := by
  induction tr with
  | nil =>
    intro s
    simp [loopRun, enqueuedOf]
  | cons ev tr ih =>
    intro s
    cases ev with
    | enqueue v =>
      calc (loopRun s (LoopEvent.enqueue v :: tr)).delivered
            ++ (loopRun s (LoopEvent.enqueue v :: tr)).mailbox
          = (loopStep s (LoopEvent.enqueue v)).delivered
            ++ (loopStep s (LoopEvent.enqueue v)).mailbox ++ enqueuedOf tr := ih _
        _ = s.delivered ++ s.mailbox ++ enqueuedOf (LoopEvent.enqueue v :: tr) := by
            simp [loopStep, enqueuedOf, List.append_assoc]
    | stop =>
      calc (loopRun s (LoopEvent.stop :: tr)).delivered
            ++ (loopRun s (LoopEvent.stop :: tr)).mailbox
          = (loopStep s LoopEvent.stop).delivered
            ++ (loopStep s LoopEvent.stop).mailbox ++ enqueuedOf tr := ih _
        _ = s.delivered ++ s.mailbox ++ enqueuedOf (LoopEvent.stop :: tr) := by
            simp [loopStep, enqueuedOf]
    | tick =>
      have key : (loopStep s LoopEvent.tick).delivered
            ++ (loopStep s LoopEvent.tick).mailbox
          = s.delivered ++ s.mailbox := by
        cases hph : s.phase <;> simp [loopStep, hph]
      calc (loopRun s (LoopEvent.tick :: tr)).delivered
            ++ (loopRun s (LoopEvent.tick :: tr)).mailbox
          = (loopStep s LoopEvent.tick).delivered
            ++ (loopStep s LoopEvent.tick).mailbox ++ enqueuedOf tr := ih _
        _ = s.delivered ++ s.mailbox ++ enqueuedOf (LoopEvent.tick :: tr) := by
            rw [key]
            simp [enqueuedOf]

/-- C6 (amended): cooperative-shutdown grace semantics of the drain loop.
First conjunct: when the loop is inside a cycle (a `started` check already
passed and the cycle's `delay(1)` is pending), the tick completing the
cycle drains the whole mailbox before the loop's next — possibly final —
check of `started`, so every envelope enqueued before that check is
forwarded, oldest first. Second conjunct: once a check has observed
`started = false` the loop is permanently exited and delivers nothing
more, so no envelope enqueued after the final check is ever delivered by
that loop. Third conjunct: exactly-once bookkeeping — delivered plus
still-queued envelopes are precisely the enqueued ones, in order, so the
flush of the final cycle delivers each envelope exactly once. The original
claim's universal "every envelope enqueued before the final check is
delivered" also covers a loop whose very first check observes `false`;
`stop_grace_flush_counterexample` refutes that case: such a loop exits
without draining envelopes already in its mailbox. -/
theorem stop_grace_flush {T : Type} (s s' : LoopState T)
    (tr : List (LoopEvent T))
    (hdel : s.phase = LoopPhase.delaying)
    (hex : s'.phase = LoopPhase.exited) :
    ((loopStep s LoopEvent.tick).delivered = s.delivered ++ s.mailbox ∧
      (loopStep s LoopEvent.tick).mailbox = []) ∧
    ((loopRun s' tr).delivered = s'.delivered) ∧
    ((loopRun s' tr).delivered ++ (loopRun s' tr).mailbox
        = s'.delivered ++ s'.mailbox ++ enqueuedOf tr) := by
  refine ⟨⟨?_, ?_⟩, (loopRun_exited_frozen tr s' hex).1,
    loop_delivered_mailbox_invariant tr s'⟩
  · simp [loopStep, hdel]
  · simp [loopStep, hdel]

/-- Witness for C6 (amended): a loop mid-cycle with `5` queued and
`started` already false flushes `5` on its completing tick; an exited
loop with `5` already delivered delivers nothing more even as `9` is
enqueued and a timer fires. -/
theorem stop_grace_flush_witness :
    ((⟨LoopPhase.delaying, false, [5], []⟩ : LoopState Nat).phase
        = LoopPhase.delaying) ∧
    ((⟨LoopPhase.exited, false, [], [5]⟩ : LoopState Nat).phase
        = LoopPhase.exited) ∧
    (loopStep (⟨LoopPhase.delaying, false, [5], []⟩ : LoopState Nat)
        LoopEvent.tick).delivered = [] ++ [5] ∧
    (loopRun (⟨LoopPhase.exited, false, [], [5]⟩ : LoopState Nat)
        [LoopEvent.enqueue 9, LoopEvent.tick]).delivered = [5] := by
  refine ⟨rfl, rfl, ?_, ?_⟩
  · exact (stop_grace_flush
      (⟨LoopPhase.delaying, false, [5], []⟩ : LoopState Nat)
      (⟨LoopPhase.exited, false, [], [5]⟩ : LoopState Nat)
      [LoopEvent.enqueue 9, LoopEvent.tick] rfl rfl).1.1
  · exact (stop_grace_flush
      (⟨LoopPhase.delaying, false, [5], []⟩ : LoopState Nat)
      (⟨LoopPhase.exited, false, [], [5]⟩ : LoopState Nat)
      [LoopEvent.enqueue 9, LoopEvent.tick] rfl rfl).2.1

/-- C6 counterexample: start from the state right after `start()` has
registered the loop's timer (`phase = scheduled`, `started = true`, empty
mailbox). An envelope is routed into the mailbox — possible before the
loop's first tick, since a send timer registered by an actor's `run`
during `start_actors` precedes the destination's loop timer — then
`stop()` runs, then the loop's timer fires. The loop's first and final
`started` check observes `false` and it exits without draining: the
envelope was enqueued strictly before the loop's final check of the flag,
yet it is never delivered, refuting the claim as stated. -/
theorem stop_grace_flush_counterexample :
    (loopRun (⟨LoopPhase.scheduled, true, [], []⟩ : LoopState Nat)
        [LoopEvent.enqueue 7, LoopEvent.stop, LoopEvent.tick]).phase
      = LoopPhase.exited ∧
    (loopRun (⟨LoopPhase.scheduled, true, [], []⟩ : LoopState Nat)
        [LoopEvent.enqueue 7, LoopEvent.stop, LoopEvent.tick]).delivered = [] ∧
    (loopRun (⟨LoopPhase.scheduled, true, [], []⟩ : LoopState Nat)
        [LoopEvent.enqueue 7, LoopEvent.stop, LoopEvent.tick]).mailbox = [7] := by
  refine ⟨?_, ?_, ?_⟩ <;> decide

/-- C7: a single `start()` call invokes `run` exactly once for each
mounted actor, synchronously during `start` (the body of `start` calls
`start_actors`, whose iteration over the registry performs exactly the
invocations listed by `start_actors_runs` before `start` returns), passing
a `Sender` and a `Receiver` both bound to that actor's mounted address;
`run` appears nowhere else in the source, so the System makes no further
calls into the actor after `run` returns. The distinct-keys hypothesis
holds of every reachable registry, which is built from the empty map by
`Map.set` (`AList.nodup_keys_set`). -/
theorem start_runs_each_actor_once {A T : Type} (s : SystemState A T)
    (a : String) (act : A)
    (hnd : s.actors.keys.Nodup) (hact : AList.get? s.actors a = some act) :
    ((start_actors_runs s).map RunInvocation.address = s.actors.keys) ∧
    (s.actors.keys.count a = 1) ∧
    (({ address := a, actor := some act, sender := ⟨a⟩,
        receiver := Receiver.new T Unit a } : RunInvocation A T)
      ∈ start_actors_runs s) ∧
    (∀ c ∈ start_actors_runs s, c.address = a →
        c = { address := a, actor := some act, sender := ⟨a⟩,
              receiver := Receiver.new T Unit a }) := by
  refine ⟨?_, ?_, ?_, ?_⟩
  · rw [start_actors_runs, List.map_map]
    exact List.map_id s.actors.keys
  · exact List.count_eq_one_of_mem hnd (AList.mem_keys_of_get?_eq_some hact)
  · have hmem : a ∈ s.actors.keys := AList.mem_keys_of_get?_eq_some hact
    have h2 := List.mem_map_of_mem
      (fun x => ({ address := x, actor := s.actors.get? x,
                   sender := Sender.mk x,
                   receiver := Receiver.new T Unit x } : RunInvocation A T)) hmem
    simp only [hact] at h2
    exact h2
  · intro c hc hca
    simp only [start_actors_runs, List.mem_map] at hc
    obtain ⟨b, hb, hfb⟩ := hc
    rw [← hfb] at hca ⊢
    have hba : b = a := hca
    subst hba
    rw [hact]

/-- Witness for C7 on a concrete registry with two mounted actors
(actors embedded as the numbers 10 and 20). -/
theorem start_runs_each_actor_once_witness :
    (AList.keys ([("A", 10), ("B", 20)] : AList String Nat)).Nodup ∧
    AList.get? ([("A", 10), ("B", 20)] : AList String Nat) "A" = some 10 ∧
    (start_actors_runs (⟨"sys", [("sys", [])], [("A", 10), ("B", 20)], true⟩
        : SystemState Nat Nat)).map RunInvocation.address = ["A", "B"] ∧
    (AList.keys ([("A", 10), ("B", 20)] : AList String Nat)).count "A" = 1 := by
  refine ⟨by decide, by decide, ?_, ?_⟩
  · exact (start_runs_each_actor_once
      (⟨"sys", [("sys", [])], [("A", 10), ("B", 20)], true⟩ : SystemState Nat Nat)
      "A" 10 (by decide) (by decide)).1
  · exact (start_runs_each_actor_once
      (⟨"sys", [("sys", [])], [("A", 10), ("B", 20)], true⟩ : SystemState Nat Nat)
      "A" 10 (by decide) (by decide)).2.1

/-- C8 (amended): `started` is false at construction, becomes true on
`start()`, becomes false on `stop()`, and — since `start()` is the only
operation that sets it true — once false it stays false under any sequence
of subsequent operations that contains no further `start()` call. (The
original claim's "never becomes true again under any sequence of
subsequent operations" is refuted by `started_reenterable_counterexample`:
the source has no guard, so calling `start()` again re-enters true.) -/
theorem started_lifecycle {A T : Type} (addr : String) (s : SystemState A T)
    (ops : List (SysOp A T)) (hs : s.started = false)
    (hops : ∀ op ∈ ops, op.isStart = false) :
    (SystemState.new A T addr).started = false ∧
    (applyOp s SysOp.start).started = true ∧
    (applyOp s SysOp.stop).started = false ∧
    (runOps s ops).started = false :=
  ⟨rfl, rfl, rfl, runOps_stays_stopped ops s hs hops⟩

/-- Witness for C8 (amended) on a fresh system with a start-free
operation sequence. -/
theorem started_lifecycle_witness :
    ((SystemState.new Unit Nat "system").started = false) ∧
    (∀ op ∈ ([SysOp.stop, SysOp.mount "A" ()] : List (SysOp Unit Nat)),
        op.isStart = false) ∧
    (runOps (SystemState.new Unit Nat "system")
        [SysOp.stop, SysOp.mount "A" ()]).started = false := by
  refine ⟨rfl, by decide, ?_⟩
  exact (started_lifecycle "system" (SystemState.new Unit Nat "system")
    [SysOp.stop, SysOp.mount "A" ()] rfl (by decide)).2.2.2

/-- C8 counterexample: on a fresh system, `start(); stop()` drives
`started` through true back to false, yet one further `start()` call makes
it true again — the source has no re-entry guard, refuting "once it has
transitioned from true to false it never becomes true again under any
sequence of subsequent operations". -/
theorem started_reenterable_counterexample :
    (runOps (SystemState.new Unit Nat "system")
        [SysOp.start, SysOp.stop]).started = false ∧
    (runOps (SystemState.new Unit Nat "system")
        [SysOp.start, SysOp.stop, SysOp.start]).started = true :=
  ⟨rfl, rfl⟩

end Crimson
